import Mathlib

/-!
Verification of the go-naive-queryfilters library: a shallow embedding of the
query-parameter-to-SQL-filter pipeline (constants, `filterParam`, `newFilterParam`,
`filterParam.Sql`, `buildPhrase`, `splitParamName`, `getOrderedGetParams`,
`getValidQueryParams`, `buildQueryFilters`, `Build`) together with theorems about it.

Modelling conventions:
- Go strings are Lean `String`; Go byte-wise string comparison agrees with Lean's
  codepoint-lexicographic order on valid UTF-8, which is the order used here.
- `url.Values` (a Go map from string to []string) is modelled as an association list
  `List (String × List String)`; the nil map / non-nil map distinction of Go is
  modelled with `Option`.  Go map keys are unique, which appears as `Nodup`
  hypotheses on the key list where relevant.
- `AllowedColumns` (a Go map from column name to rewrite function) is an association
  list `List (String × (String → String))` looked up with `List.lookup`.
- Go `slices.Sort` on the unique key slice is modelled by `List.insertionSort`:
  on duplicate-free input every sort produces the same, unique, sorted permutation.
- The third-party ordered map (`omap`) is modelled as a list of key-value pairs in
  insertion order; `omap.Set` on an existing key overwrites the stored value in
  place (keeping the entry position), otherwise appends a new entry at the end;
  `Pairs()` is the list itself.  `omap.New` never fails in this model (its error
  path is dead in practice), and the `Del` call on the input map while iterating a
  `Pairs()` snapshot has no observable effect, so it is not modelled.
- `strings.Split` and `strings.ToUpper` are modelled by the structurally recursive
  `stringsSplit` and `stringsToUpper` below so that every pipeline function
  evaluates by kernel reduction.
- Go errors are modelled by the inductive `BuildError`; the two `fmt.Errorf` plain
  errors of `newFilterParam` get the constructors `emptyValues` and
  `likeMultipleValues`.
-/

namespace NaiveQueryFilters

/-- Operator names used inside get-parameter keys (source constants). -/
def OPERATOR_SEPARATOR : String := "__"

/-- Source constant: the `in` operator token. -/
def OPERATOR_IN : String := "in"

/-- Source constant: the `not_in` operator token. -/
def OPERATOR_NOT_IN : String := "not_in"

/-- Source constant: the `like` operator token. -/
def OPERATOR_LIKE : String := "like"

/-- Source constant: SQL `IN` token. -/
def QUERY_TOKEN_IN : String := "IN"

/-- Source constant: SQL `NOT IN` token. -/
def QUERY_TOKEN_NOT_IN : String := "NOT IN"

/-- Source constant: SQL `=` token. -/
def QUERY_TOKEN_EQUALS : String := "="

/-- Source constant: SQL `<>` token. -/
def QUERY_TOKEN_NOT_EQUALS : String := "<>"

/-- Source constant: SQL `LIKE` token. -/
def QUERY_TOKEN_LIKE : String := "LIKE"

/-- The `OPERATORS` map pairing get-parameter operator names with SQL query tokens. -/
def OPERATORS : List (String × String) :=
  [(OPERATOR_IN, QUERY_TOKEN_IN), (OPERATOR_NOT_IN, QUERY_TOKEN_NOT_IN),
   (OPERATOR_LIKE, QUERY_TOKEN_LIKE)]

/-- Splitting worker for `stringsSplit`, structurally recursive on a fuel that
starts at the list length (each step consumes at least one character, so the
fuel never runs out on the real inputs): on a separator match emit the
accumulated segment and skip the separator, otherwise accumulate the head. -/
def stringsSplitAux (sep : List Char) : Nat → List Char → List Char → List (List Char)
  | _, acc, [] => [acc.reverse]
  | 0, acc, l => [acc.reverse ++ l]
  | fuel + 1, acc, c :: rest =>
    if sep.isPrefixOf (c :: rest) then
      acc.reverse :: stringsSplitAux sep fuel [] ((c :: rest).drop sep.length)
    else
      stringsSplitAux sep fuel (c :: acc) rest

/-- Go's `strings.Split` (for a non-empty separator): split around every
non-overlapping, left-to-right occurrence of the separator. -/
def stringsSplit (s sep : String) : List String :=
  (stringsSplitAux sep.data s.data.length [] s.data).map String.mk

/-- Go's `strings.ToUpper`, on the ASCII range (the source only upper-cases the
all-ASCII SQL query tokens). -/
def stringsToUpper (s : String) : String :=
  String.mk (s.data.map Char.toUpper)

/-- Errors of the pipeline (the source's typed errors plus its two plain errors). -/
inductive BuildError where
  | wrongQueryParamName (paramName : String)
  | wrongOperator (operator paramName : String)
  | attemptedEmptyFilteringParams
  | emptyValues
  | likeMultipleValues
deriving DecidableEq, Repr

/-- The `filterParam` struct: column name, SQL query token, raw values. -/
structure filterParam where
  Name : String
  QueryToken : String
  Values : List String
deriving DecidableEq, Repr

/-- The caller-supplied whitelist: column name paired with its rewrite function. -/
abbrev AllowedColumns := List (String × (String → String))

/-- The raw get parameters: key paired with its ordered values. -/
abbrev RawParams := List (String × List String)

/-- The `Filter` struct returned by `Build`. -/
structure Filter where
  SqlFilters : String
  PlaceholderValues : List String
deriving DecidableEq, Repr

/-- `newFilterParam` from the source: construct a `filterParam` from column name,
operator and values, rejecting empty value lists and multi-value `like`. -/
def newFilterParam (name operator : String) (values : List String) :
    Except BuildError filterParam :=
  if values.length = 0 then
    .error .emptyValues
  else if operator = "" then
    .ok ⟨name, QUERY_TOKEN_IN, values⟩
  else if operator = OPERATOR_LIKE ∧ values.length > 1 then
    .error .likeMultipleValues
  else
    match OPERATORS.lookup operator with
    | none => .error (.wrongOperator operator name)
    | some queryToken => .ok ⟨name, queryToken, values⟩

/-- `buildPhrase` from the source: start from `<column> <UPPER(op)> (`, append
`?,` once per value (the Go `for range` loop is the fold), cut the final byte
(always the ASCII comma, or the `(` when there are no values, so the byte-slice
trim `phrase[:len(phrase)-1]` is `List.dropLast` on the character data), and
close with `)`. -/
def buildPhrase (columnName operatorName : String) (values : List String) : String :=
  let phrase := values.foldl (fun acc _ => acc ++ "?,")
      (columnName ++ " " ++ stringsToUpper operatorName ++ " (")
  String.mk phrase.data.dropLast ++ ")"

/-- `filterParam.Sql` from the source: the SQL fragment for one parameter. -/
def filterParam.Sql (fp : filterParam) : String :=
  if fp.Values.length = 1 ∧ fp.QueryToken = QUERY_TOKEN_IN then
    fp.Name ++ " " ++ QUERY_TOKEN_EQUALS ++ " ?"
  else if fp.Values.length = 1 ∧ fp.QueryToken = QUERY_TOKEN_NOT_IN then
    fp.Name ++ " " ++ QUERY_TOKEN_NOT_EQUALS ++ " ?"
  else if fp.QueryToken = QUERY_TOKEN_LIKE then
    "LOWER(" ++ fp.Name ++ ") " ++ QUERY_TOKEN_LIKE ++ " CONCAT('%', ?, '%')"
  else
    buildPhrase fp.Name fp.QueryToken fp.Values

/-- `splitParamName` from the source.  `strings.Contains name sep` is equivalent to
the `strings.Split` result having at least two segments, so the no-separator test
appears here as `res.length ≤ 1`; in that case `res` is `[paramName]` and the Go
`res[0]` is its head. -/
def splitParamName (paramName : String) (paramValues : List String) :
    Except BuildError filterParam :=
  let res := stringsSplit paramName OPERATOR_SEPARATOR
  if res.length ≤ 1 then
    newFilterParam (res.headD "") "" paramValues
  else if res.length ≠ 2 then
    .error (.wrongQueryParamName paramName)
  else
    let operator := res.getD 1 ""
    if (OPERATORS.lookup operator).isNone then
      .error (.wrongOperator operator paramName)
    else
      newFilterParam (res.headD "") operator paramValues

/-- The ascending key order used by the sort: lexicographic on the character
data, which is Go's byte-wise string order on valid UTF-8.  It agrees with the
`≤` of `String` (theorem `keyLe_iff_le` below) but is stated on `data` so that
it evaluates by kernel reduction. -/
def keyLe (a b : String) : Prop := a.data ≤ b.data

instance keyLe.instDecidableRel : DecidableRel keyLe :=
  fun a b => inferInstanceAs (Decidable (a.data ≤ b.data))

instance keyLe.instIsTotal : IsTotal String keyLe :=
  ⟨fun a b =>
    (le_total a b).imp String.le_iff_toList_le.mp String.le_iff_toList_le.mp⟩

instance keyLe.instIsTrans : IsTrans String keyLe :=
  ⟨fun _ _ _ h₁ h₂ =>
    String.le_iff_toList_le.mp
      (le_trans (String.le_iff_toList_le.mpr h₁) (String.le_iff_toList_le.mpr h₂))⟩

instance keyLe.instIsAntisymm : IsAntisymm String keyLe :=
  ⟨fun _ _ h₁ h₂ =>
    le_antisymm (String.le_iff_toList_le.mpr h₁) (String.le_iff_toList_le.mpr h₂)⟩

/-- `getOrderedGetParams` from the source: collect the keys, sort them
ascending, and emit the (key, values) pairs in that order. -/
def getOrderedGetParams (getParams : RawParams) : RawParams :=
  (List.insertionSort keyLe (getParams.map Prod.fst)).map
    (fun key => (key, (getParams.lookup key).getD []))

/-- The modelled `omap.Set`: overwrite in place when the key is present,
append otherwise. -/
def omapSet (m : List (String × filterParam)) (key : String) (v : filterParam) :
    List (String × filterParam) :=
  if m.any (fun p => p.1 == key) then
    m.map (fun p => if p.1 == key then (key, v) else p)
  else
    m ++ [(key, v)]

/-- The parameter-scanning loop of `getValidQueryParams`: split each pair,
abort on the first split error, store whitelisted parameters (under their
rewritten name) in the valid ordered map and the rest in the removed map. -/
def gvqpLoop (filterAllowedColumnNames : AllowedColumns) :
    RawParams → List (String × filterParam) → RawParams →
    List (String × filterParam) × RawParams × Option BuildError
  | [], validParams, removedParams => (validParams, removedParams, none)
  | (key, values) :: rest, validParams, removedParams =>
    match splitParamName key values with
    | .error e => (validParams, removedParams, some e)
    | .ok fp =>
      match filterAllowedColumnNames.lookup fp.Name with
      | some colNameConverterFunc =>
        gvqpLoop filterAllowedColumnNames rest
          (omapSet validParams (colNameConverterFunc fp.Name)
            { fp with Name := colNameConverterFunc fp.Name })
          removedParams
      | none =>
        gvqpLoop filterAllowedColumnNames rest validParams
          (removedParams ++ [(key, values)])

/-- `getValidQueryParams` from the source: reject empty input, run the scanning
loop, and turn an empty removed-parameters map into the nil map only on the
success path. -/
def getValidQueryParams (filterAllowedColumnNames : AllowedColumns)
    (getParams : RawParams) :
    List (String × filterParam) × Option RawParams × Option BuildError :=
  if getParams.length = 0 then
    ([], none, some .attemptedEmptyFilteringParams)
  else
    match gvqpLoop filterAllowedColumnNames getParams [] [] with
    | (validParams, removedParams, some e) => (validParams, some removedParams, some e)
    | (validParams, removedParams, none) =>
      (validParams, if removedParams.length = 0 then none else some removedParams, none)

/-- The fragment-joining of `buildQueryFilters`: each fragment, with `" AND "`
between any two consecutive ones. -/
def joinAnd : List String → String
  | [] => ""
  | [s] => s
  | s :: rest => s ++ " AND " ++ joinAnd rest

/-- `buildQueryFilters` from the source: join the per-parameter fragments with
`" AND "` and concatenate their value lists in the same order. -/
def buildQueryFilters (validParams : List (String × filterParam)) : Filter :=
  ⟨joinAnd (validParams.map (fun p => p.2.Sql)),
   validParams.flatMap (fun p => p.2.Values)⟩

/-- The result triple of `Build`. -/
structure BuildResult where
  filter : Filter
  invalidParams : Option RawParams
  err : Option BuildError
deriving DecidableEq, Repr

/-- `Build` from the source: order the parameters, validate them, and assemble
the filter; on a validation error the zero-value `Filter` is returned. -/
def Build (filterAllowedColumnNames : AllowedColumns) (getParams : RawParams) :
    BuildResult :=
  match getValidQueryParams filterAllowedColumnNames (getOrderedGetParams getParams) with
  | (_, invalidParams, some e) => ⟨⟨"", []⟩, invalidParams, some e⟩
  | (validParams, invalidParams, none) =>
    ⟨buildQueryFilters validParams, invalidParams, none⟩

/-! Analysis helpers: predicates describing how one raw pair fares in the
pipeline, and the accumulated forms of the scanning loop. -/

/-- Whether `splitParamName` accepts the pair. -/
def splitOk (e : String × List String) : Bool :=
  match splitParamName e.1 e.2 with
  | .ok _ => true
  | .error _ => false

/-- The valid-map entry a pair contributes: its parsed parameter under the
rewritten column name, or `none` when the pair fails to split or its column is
not whitelisted. -/
def acceptsEntry (wl : AllowedColumns) (e : String × List String) :
    Option (String × filterParam) :=
  match splitParamName e.1 e.2 with
  | .error _ => none
  | .ok fp =>
    match wl.lookup fp.Name with
    | some f => some (f fp.Name, { fp with Name := f fp.Name })
    | none => none

/-- Whether the pair splits fine but its column is not whitelisted (so it is
routed to the removed-parameters map). -/
def isRejected (wl : AllowedColumns) (e : String × List String) : Bool :=
  match splitParamName e.1 e.2 with
  | .error _ => false
  | .ok fp => (wl.lookup fp.Name).isNone

/-- Repeated `omapSet` insertion, as performed by the scanning loop. -/
def foldSet (vp : List (String × filterParam)) (l : List (String × filterParam)) :
    List (String × filterParam) :=
  l.foldl (fun m p => omapSet m p.1 p.2) vp

/-- Number of `?` characters of a string. -/
def countQ (s : String) : Nat := s.data.count '?'

/-- `n` comma-separated placeholders, no trailing comma. -/
def placeholders : Nat → String
  | 0 => ""
  | 1 => "?"
  | n + 2 => "?," ++ placeholders (n + 1)

/-- The string the Go placeholder loop appends: `?,` repeated `n` times. -/
def qmarks : Nat → String
  | 0 => ""
  | n + 1 => "?," ++ qmarks n

/-- The reading of claim C1 to be compared with `Build`: the fragment rebuilt
with the accepted parameters sorted by their final (post-rewrite) column names. -/
def fragmentSortedByFinalName (wl : AllowedColumns) (ps : RawParams) : String :=
  joinAnd ((@List.insertionSort _ (fun p q => keyLe p.1 q.1)
      (fun p q => keyLe.instDecidableRel p.1 q.1)
      ((getOrderedGetParams ps).filterMap (acceptsEntry wl))).map (fun p => p.2.Sql))

end NaiveQueryFilters

namespace NaiveQueryFilters

theorem lookup_mem {α β : Type} [BEq α] [LawfulBEq α] :
    ∀ {l : List (α × β)} {a : α} {b : β}, l.lookup a = some b → (a, b) ∈ l := by
  intro l
  induction l with
  | nil => intro a b h; simp [List.lookup] at h
  | cons p rest ih =>
    intro a b h
    rw [show p = (p.1, p.2) from rfl, List.lookup_cons] at h
    by_cases hab : (a == p.1) = true
    · simp only [hab] at h
      have ha : a = p.1 := eq_of_beq hab
      subst ha
      simp only [Option.some.injEq] at h
      simp [← h]
    · rw [Bool.not_eq_true] at hab
      simp only [hab] at h
      exact List.mem_cons_of_mem _ (ih h)

theorem omapSet_mem {m : List (String × filterParam)} {k : String} {v : filterParam} :
    ∀ q ∈ omapSet m k v, q ∈ m ∨ q = (k, v) := by
  intro q hq
  unfold omapSet at hq
  split at hq
  · rw [List.mem_map] at hq
    obtain ⟨p, hp, hpq⟩ := hq
    by_cases hk : (p.1 == k) = true
    · rw [if_pos hk] at hpq
      right; exact hpq.symm
    · rw [Bool.not_eq_true] at hk
      rw [hk] at hpq
      simp only [Bool.false_eq_true, if_false] at hpq
      left; exact hpq ▸ hp
  · rw [List.mem_append] at hq
    rcases hq with hq | hq
    · left; exact hq
    · right; simpa using hq

theorem omapSet_fresh {m : List (String × filterParam)} {k : String} {v : filterParam}
    (h : ∀ p ∈ m, p.1 ≠ k) : omapSet m k v = m ++ [(k, v)] := by
  unfold omapSet
  have hany : m.any (fun p => p.1 == k) = false := by
    simp only [List.any_eq_false]
    intro p hp
    simpa using h p hp
  simp [hany]

theorem foldSet_fresh :
    ∀ (L : List (String × filterParam)) (vp : List (String × filterParam)),
      (((vp ++ L).map Prod.fst).Nodup) → foldSet vp L = vp ++ L := by
  intro L
  induction L with
  | nil => intro vp _; simp [foldSet]
  | cons p L ih =>
    intro vp hnd
    have hdisj : List.Disjoint (vp.map Prod.fst) ((p :: L).map Prod.fst) := by
      have h := hnd
      rw [List.map_append, List.nodup_append] at h
      exact h.2.2
    have hfresh : ∀ q ∈ vp, q.1 ≠ p.1 := by
      intro q hq he
      exact hdisj (List.mem_map_of_mem _ hq) (by simp [he])
    have hstep : omapSet vp p.1 p.2 = vp ++ [p] := by
      have := omapSet_fresh (m := vp) (k := p.1) (v := p.2) hfresh
      simpa using this
    have hrec := ih (vp ++ [p]) (by simpa using hnd)
    calc foldSet vp (p :: L) = foldSet (omapSet vp p.1 p.2) L := rfl
      _ = foldSet (vp ++ [p]) L := by rw [hstep]
      _ = (vp ++ [p]) ++ L := hrec
      _ = vp ++ p :: L := by simp

theorem foldSet_forall (P : String × filterParam → Prop) :
    ∀ (L : List (String × filterParam)) (vp : List (String × filterParam)),
      (∀ q ∈ vp, P q) → (∀ q ∈ L, P q) → ∀ q ∈ foldSet vp L, P q := by
  intro L
  induction L with
  | nil => intro vp hvp _ q hq; exact hvp q hq
  | cons p L ih =>
    intro vp hvp hL q hq
    have hvp2 : ∀ q ∈ omapSet vp p.1 p.2, P q := by
      intro q hq
      rcases omapSet_mem q hq with h | h
      · exact hvp q h
      · subst h; exact hL p (by simp)
    exact ih (omapSet vp p.1 p.2) hvp2 (fun q hq => hL q (by simp [hq])) q hq


theorem gvqpLoop_cons_err {wl : AllowedColumns} {k : String} {vs : List String}
    {l : RawParams} {vp : List (String × filterParam)} {rp : RawParams} {e : BuildError}
    (hs : splitParamName k vs = .error e) :
    gvqpLoop wl ((k, vs) :: l) vp rp = (vp, rp, some e) := by
  simp only [gvqpLoop, hs]

theorem gvqpLoop_cons_some {wl : AllowedColumns} {k : String} {vs : List String}
    {l : RawParams} {vp : List (String × filterParam)} {rp : RawParams}
    {fp : filterParam} {f : String → String}
    (hs : splitParamName k vs = .ok fp) (hl : wl.lookup fp.Name = some f) :
    gvqpLoop wl ((k, vs) :: l) vp rp =
      gvqpLoop wl l (omapSet vp (f fp.Name) { fp with Name := f fp.Name }) rp := by
  simp only [gvqpLoop, hs, hl]

theorem gvqpLoop_cons_none {wl : AllowedColumns} {k : String} {vs : List String}
    {l : RawParams} {vp : List (String × filterParam)} {rp : RawParams}
    {fp : filterParam}
    (hs : splitParamName k vs = .ok fp) (hl : wl.lookup fp.Name = none) :
    gvqpLoop wl ((k, vs) :: l) vp rp = gvqpLoop wl l vp (rp ++ [(k, vs)]) := by
  simp only [gvqpLoop, hs, hl]

theorem acceptsEntry_some {wl : AllowedColumns} {k : String} {vs : List String}
    {fp : filterParam} {f : String → String}
    (hs : splitParamName k vs = .ok fp) (hl : wl.lookup fp.Name = some f) :
    acceptsEntry wl (k, vs) = some (f fp.Name, { fp with Name := f fp.Name }) := by
  simp only [acceptsEntry, hs, hl]

theorem acceptsEntry_none {wl : AllowedColumns} {k : String} {vs : List String}
    {fp : filterParam}
    (hs : splitParamName k vs = .ok fp) (hl : wl.lookup fp.Name = none) :
    acceptsEntry wl (k, vs) = none := by
  simp only [acceptsEntry, hs, hl]

theorem acceptsEntry_err {wl : AllowedColumns} {k : String} {vs : List String}
    {e : BuildError} (hs : splitParamName k vs = .error e) :
    acceptsEntry wl (k, vs) = none := by
  simp only [acceptsEntry, hs]

theorem isRejected_some {wl : AllowedColumns} {k : String} {vs : List String}
    {fp : filterParam} {f : String → String}
    (hs : splitParamName k vs = .ok fp) (hl : wl.lookup fp.Name = some f) :
    isRejected wl (k, vs) = false := by
  simp only [isRejected, hs, hl, Option.isNone_some]

theorem isRejected_none {wl : AllowedColumns} {k : String} {vs : List String}
    {fp : filterParam}
    (hs : splitParamName k vs = .ok fp) (hl : wl.lookup fp.Name = none) :
    isRejected wl (k, vs) = true := by
  simp only [isRejected, hs, hl, Option.isNone_none]

theorem isRejected_err {wl : AllowedColumns} {k : String} {vs : List String}
    {e : BuildError} (hs : splitParamName k vs = .error e) :
    isRejected wl (k, vs) = false := by
  simp only [isRejected, hs]

theorem splitOk_ok {k : String} {vs : List String} {fp : filterParam}
    (hs : splitParamName k vs = .ok fp) : splitOk (k, vs) = true := by
  simp only [splitOk, hs]

theorem splitOk_err {k : String} {vs : List String} {e : BuildError}
    (hs : splitParamName k vs = .error e) : splitOk (k, vs) = false := by
  simp only [splitOk, hs]

theorem splitOk_exists {k : String} {vs : List String}
    (h : splitOk (k, vs) = true) : ∃ fp, splitParamName k vs = .ok fp := by
  unfold splitOk at h
  cases hs : splitParamName k vs with
  | ok fp => exact ⟨fp, rfl⟩
  | error e => rw [hs] at h; simp at h

end NaiveQueryFilters

namespace NaiveQueryFilters

theorem gvqpLoop_ok (wl : AllowedColumns) :
    ∀ (l : RawParams) (vp : List (String × filterParam)) (rp : RawParams),
      (∀ x ∈ l, splitOk x = true) →
      gvqpLoop wl l vp rp =
        (foldSet vp (l.filterMap (acceptsEntry wl)),
         rp ++ l.filter (isRejected wl), none) := by
  intro l
  induction l with
  | nil => intro vp rp _; simp [gvqpLoop, foldSet]
  | cons e l ih =>
    intro vp rp hok
    obtain ⟨k, vs⟩ := e
    obtain ⟨fp, hsplit⟩ := splitOk_exists (hok (k, vs) (by simp))
    cases hlook : wl.lookup fp.Name with
    | some f =>
      rw [gvqpLoop_cons_some hsplit hlook,
        ih _ rp (fun x hx => hok x (by simp [hx])),
        List.filterMap_cons, acceptsEntry_some hsplit hlook,
        List.filter_cons, isRejected_some hsplit hlook]
      simp only [Bool.false_eq_true, if_false]
      rfl
    | none =>
      rw [gvqpLoop_cons_none hsplit hlook,
        ih vp _ (fun x hx => hok x (by simp [hx])),
        List.filterMap_cons, acceptsEntry_none hsplit hlook,
        List.filter_cons, isRejected_none hsplit hlook]
      simp only [if_true]
      rw [List.append_assoc]
      rfl

theorem gvqpLoop_err (wl : AllowedColumns) :
    ∀ (l₁ : RawParams) (k : String) (vs : List String) (l₂ : RawParams)
      (vp : List (String × filterParam)) (rp : RawParams) (e : BuildError),
      (∀ x ∈ l₁, splitOk x = true) →
      splitParamName k vs = .error e →
      gvqpLoop wl (l₁ ++ (k, vs) :: l₂) vp rp =
        (foldSet vp (l₁.filterMap (acceptsEntry wl)),
         rp ++ l₁.filter (isRejected wl), some e) := by
  intro l₁
  induction l₁ with
  | nil =>
    intro k vs l₂ vp rp e _ hsplit
    simp only [List.nil_append, List.filterMap_nil, List.filter_nil, List.append_nil]
    rw [gvqpLoop_cons_err hsplit]
    simp [foldSet]
  | cons x l₁ ih =>
    intro k vs l₂ vp rp e hok hsplit
    obtain ⟨k₀, vs₀⟩ := x
    obtain ⟨fp, hsplit₀⟩ := splitOk_exists (hok (k₀, vs₀) (by simp))
    cases hlook : wl.lookup fp.Name with
    | some f =>
      rw [List.cons_append, gvqpLoop_cons_some hsplit₀ hlook,
        ih k vs l₂ _ rp e (fun x hx => hok x (by simp [hx])) hsplit,
        List.filterMap_cons, acceptsEntry_some hsplit₀ hlook,
        List.filter_cons, isRejected_some hsplit₀ hlook]
      simp only [Bool.false_eq_true, if_false]
      rfl
    | none =>
      rw [List.cons_append, gvqpLoop_cons_none hsplit₀ hlook,
        ih k vs l₂ vp _ e (fun x hx => hok x (by simp [hx])) hsplit,
        List.filterMap_cons, acceptsEntry_none hsplit₀ hlook,
        List.filter_cons, isRejected_none hsplit₀ hlook]
      simp only [if_true]
      rw [List.append_assoc]
      rfl

theorem gvqpLoop_err_none_iff (wl : AllowedColumns) :
    ∀ (l : RawParams) (vp : List (String × filterParam)) (rp : RawParams),
      (gvqpLoop wl l vp rp).2.2 = none ↔ ∀ x ∈ l, splitOk x = true := by
  intro l
  induction l with
  | nil => intro vp rp; simp [gvqpLoop]
  | cons e l ih =>
    intro vp rp
    obtain ⟨k, vs⟩ := e
    cases hsplit : splitParamName k vs with
    | error e₀ =>
      rw [gvqpLoop_cons_err hsplit]
      constructor
      · intro h; simp at h
      · intro h
        have := h (k, vs) (by simp)
        rw [splitOk_err hsplit] at this
        simp at this
    | ok fp =>
      have hsk := splitOk_ok hsplit
      cases hlook : wl.lookup fp.Name with
      | some f =>
        rw [gvqpLoop_cons_some hsplit hlook, ih]
        constructor
        · intro h x hx
          rcases List.mem_cons.mp hx with hx | hx
          · subst hx; exact hsk
          · exact h x hx
        · intro h x hx; exact h x (by simp [hx])
      | none =>
        rw [gvqpLoop_cons_none hsplit hlook, ih]
        constructor
        · intro h x hx
          rcases List.mem_cons.mp hx with hx | hx
          · subst hx; exact hsk
          · exact h x hx
        · intro h x hx; exact h x (by simp [hx])

theorem gvqpLoop_rp_of_no_reject (wl : AllowedColumns) :
    ∀ (l : RawParams) (vp : List (String × filterParam)) (rp : RawParams),
      (∀ x ∈ l, isRejected wl x = false) →
      (gvqpLoop wl l vp rp).2.1 = rp := by
  intro l
  induction l with
  | nil => intro vp rp _; simp [gvqpLoop]
  | cons e l ih =>
    intro vp rp hno
    obtain ⟨k, vs⟩ := e
    cases hsplit : splitParamName k vs with
    | error e₀ => rw [gvqpLoop_cons_err hsplit]
    | ok fp =>
      cases hlook : wl.lookup fp.Name with
      | some f =>
        rw [gvqpLoop_cons_some hsplit hlook]
        exact ih _ rp (fun x hx => hno x (by simp [hx]))
      | none =>
        exfalso
        have := hno (k, vs) (by simp)
        rw [isRejected_none hsplit hlook] at this
        simp at this

end NaiveQueryFilters

namespace NaiveQueryFilters

/-- The key sequence of the ordered parameters is the sorted key sequence. -/
theorem ordered_keys (ps : RawParams) :
    (getOrderedGetParams ps).map Prod.fst
      = List.insertionSort keyLe (ps.map Prod.fst) := by
  unfold getOrderedGetParams
  rw [List.map_map]
  calc (List.insertionSort keyLe (ps.map Prod.fst)).map
        (Prod.fst ∘ fun key => (key, (ps.lookup key).getD []))
      = (List.insertionSort keyLe (ps.map Prod.fst)).map id :=
        List.map_congr_left (fun a _ => rfl)
    _ = List.insertionSort keyLe (ps.map Prod.fst) := List.map_id _

/-- The ordered parameter keys ascend. -/
theorem ordered_sorted (ps : RawParams) :
    List.Sorted keyLe ((getOrderedGetParams ps).map Prod.fst) := by
  rw [ordered_keys]
  exact List.sorted_insertionSort keyLe _

/-- Rebuilding an association list from its own key list is the identity when
the keys are duplicate-free. -/
theorem map_lookup_self :
    ∀ (ps : RawParams), ((ps.map Prod.fst).Nodup) →
      (ps.map Prod.fst).map (fun k => (k, (ps.lookup k).getD [])) = ps := by
  intro ps
  induction ps with
  | nil => intro _; simp
  | cons p rest ih =>
    intro hnd
    obtain ⟨k, vs⟩ := p
    simp only [List.map_cons]
    have hk : (((k, vs) :: rest).lookup k).getD [] = vs := by
      simp [List.lookup_cons]
    rw [hk]
    have hknot : k ∉ rest.map Prod.fst := by
      simp only [List.map_cons, List.nodup_cons] at hnd
      exact hnd.1
    have hcongr : (rest.map Prod.fst).map (fun k' => (k', (((k, vs) :: rest).lookup k').getD []))
        = (rest.map Prod.fst).map (fun k' => (k', (rest.lookup k').getD [])) := by
      apply List.map_congr_left
      intro k' hk'
      have hne : (k' == k) = false := by
        rw [beq_eq_false_iff_ne]
        intro he
        exact hknot (he ▸ hk')
      simp [List.lookup_cons, hne]
    rw [hcongr, ih (by simp only [List.map_cons, List.nodup_cons] at hnd; exact hnd.2)]

/-- With duplicate-free keys, ordering is a permutation of the input pairs. -/
theorem ordered_perm (ps : RawParams) (hnd : (ps.map Prod.fst).Nodup) :
    (getOrderedGetParams ps).Perm ps := by
  unfold getOrderedGetParams
  have hperm : (List.insertionSort keyLe (ps.map Prod.fst)).Perm (ps.map Prod.fst) :=
    List.perm_insertionSort keyLe _
  calc ((List.insertionSort keyLe (ps.map Prod.fst)).map
          (fun key => (key, (ps.lookup key).getD []))).Perm
        ((ps.map Prod.fst).map (fun key => (key, (ps.lookup key).getD []))) :=
        hperm.map _
    _ = ps := map_lookup_self ps hnd

/-- Ordering keeps the number of parameters. -/
theorem ordered_length (ps : RawParams) :
    (getOrderedGetParams ps).length = ps.length := by
  unfold getOrderedGetParams
  simp

/-- Ordering keeps keys duplicate-free. -/
theorem ordered_nodup (ps : RawParams) (hnd : (ps.map Prod.fst).Nodup) :
    ((getOrderedGetParams ps).map Prod.fst).Nodup := by
  rw [ordered_keys]
  exact ((List.perm_insertionSort keyLe _).nodup_iff).mpr hnd

/-- Success-path characterization of `Build`: when the input is non-empty and
every ordered pair splits, the filter is assembled from the accepted entries
and the rejected pairs become the invalid-parameters map (nil when empty). -/
theorem Build_success (wl : AllowedColumns) (ps : RawParams)
    (hne : getOrderedGetParams ps ≠ [])
    (hok : ∀ x ∈ getOrderedGetParams ps, splitOk x = true) :
    Build wl ps =
      ⟨buildQueryFilters (foldSet [] ((getOrderedGetParams ps).filterMap (acceptsEntry wl))),
       if (getOrderedGetParams ps).filter (isRejected wl) = [] then none
       else some ((getOrderedGetParams ps).filter (isRejected wl)),
       none⟩ := by
  unfold Build getValidQueryParams
  have hlen : ¬ (getOrderedGetParams ps).length = 0 := by
    simpa [List.length_eq_zero] using hne
  rw [if_neg hlen, gvqpLoop_ok wl _ [] [] hok]
  simp only [List.nil_append]
  by_cases hrej : (getOrderedGetParams ps).filter (isRejected wl) = []
  · simp [hrej]
  · have : ¬ ((getOrderedGetParams ps).filter (isRejected wl)).length = 0 := by
      simpa [List.length_eq_zero] using hrej
    simp [hrej, this]

/-- Error-path characterization of `Build`: the first pair of the ordered list
that fails to split aborts the call with its error, the zero filter, and the
non-nil rejected map accumulated so far. -/
theorem Build_error (wl : AllowedColumns) (ps : RawParams)
    (l₁ l₂ : RawParams) (k : String) (vs : List String) (e : BuildError)
    (hdecomp : getOrderedGetParams ps = l₁ ++ (k, vs) :: l₂)
    (hok : ∀ x ∈ l₁, splitOk x = true)
    (hsplit : splitParamName k vs = .error e) :
    Build wl ps = ⟨⟨"", []⟩, some (l₁.filter (isRejected wl)), some e⟩ := by
  unfold Build getValidQueryParams
  have hlen : ¬ (getOrderedGetParams ps).length = 0 := by
    rw [hdecomp]
    simp
  rw [if_neg hlen, hdecomp, gvqpLoop_err wl l₁ k vs l₂ [] [] e hok hsplit]
  simp

/-- The `Build` error component is `none` exactly when the input is non-empty
and every ordered pair splits. -/
theorem Build_err_none_iff (wl : AllowedColumns) (ps : RawParams) :
    (Build wl ps).err = none ↔
      (getOrderedGetParams ps ≠ [] ∧
       ∀ x ∈ getOrderedGetParams ps, splitOk x = true) := by
  unfold Build getValidQueryParams
  by_cases hlen : (getOrderedGetParams ps).length = 0
  · rw [if_pos hlen]
    simp only [List.length_eq_zero] at hlen
    simp [hlen]
  · rw [if_neg hlen]
    have hiff := gvqpLoop_err_none_iff wl (getOrderedGetParams ps) [] []
    simp only [List.length_eq_zero] at hlen
    cases hloop : gvqpLoop wl (getOrderedGetParams ps) [] [] with
    | mk vp rest =>
      obtain ⟨rp, oe⟩ := rest
      rw [hloop] at hiff
      simp only at hiff
      cases oe with
      | some e =>
        simp only
        constructor
        · intro h; simp at h
        · intro h
          exfalso
          have : (some e : Option BuildError) = none := hiff.mpr h.2
          simp at this
      | none =>
        simp only
        constructor
        · intro _; exact ⟨hlen, hiff.mp rfl⟩
        · intro _; trivial

end NaiveQueryFilters

namespace NaiveQueryFilters

/-- The placeholder loop of `buildPhrase` appends `?,` once per value. -/
theorem foldl_qmarks :
    ∀ (vs : List String) (acc : String),
      vs.foldl (fun a _ => a ++ "?,") acc = acc ++ qmarks vs.length := by
  intro vs
  induction vs with
  | nil => intro acc; simp [qmarks]
  | cons v vs ih =>
    intro acc
    rw [List.foldl_cons, ih (acc ++ "?,"), List.length_cons]
    rw [String.append_assoc]
    rfl

/-- `?,` repeated a positive number of times is the comma-separated
placeholders followed by one trailing comma. -/
theorem qmarks_data :
    ∀ n, 1 ≤ n → (qmarks n).data = (placeholders n).data ++ [','] := by
  intro n
  induction n with
  | zero => intro h; omega
  | succ m ih =>
    intro _
    cases m with
    | zero => rfl
    | succ k =>
      show ("?," ++ qmarks (k + 1)).data = ("?," ++ placeholders (k + 1)).data ++ [',']
      rw [String.data_append, String.data_append, ih (by omega), List.append_assoc]

/-- Closed form of `buildPhrase` for at least one value. -/
theorem buildPhrase_eq (c op : String) (vs : List String) (h : vs ≠ []) :
    buildPhrase c op vs
      = c ++ " " ++ stringsToUpper op ++ " (" ++ placeholders vs.length ++ ")" := by
  have hn : 1 ≤ vs.length := by
    cases vs with
    | nil => exact absurd rfl h
    | cons a l => simp
  have hdata : ((c ++ " " ++ stringsToUpper op ++ " (") ++ qmarks vs.length).data
      = ((c ++ " " ++ stringsToUpper op ++ " (").data
          ++ (placeholders vs.length).data) ++ [','] := by
    rw [String.data_append, qmarks_data vs.length hn, ← List.append_assoc]
  simp only [buildPhrase]
  rw [foldl_qmarks]
  apply String.ext
  calc (String.mk (((c ++ " " ++ stringsToUpper op ++ " (")
            ++ qmarks vs.length).data.dropLast) ++ ")").data
      = ((c ++ " " ++ stringsToUpper op ++ " (")
            ++ qmarks vs.length).data.dropLast ++ [')'] := by
        rw [String.data_append]
    _ = ((c ++ " " ++ stringsToUpper op ++ " (").data
            ++ (placeholders vs.length).data) ++ [')'] := by
        rw [hdata, List.dropLast_concat]
    _ = (c ++ " " ++ stringsToUpper op ++ " (" ++ placeholders vs.length ++ ")").data := by
        simp [String.data_append]

end NaiveQueryFilters

namespace NaiveQueryFilters

theorem countQ_append (a b : String) : countQ (a ++ b) = countQ a + countQ b := by
  unfold countQ
  rw [String.data_append, List.count_append]

theorem countQ_placeholders : ∀ n, countQ (placeholders n) = n := by
  intro n
  induction n with
  | zero => decide
  | succ m ih =>
    cases m with
    | zero => decide
    | succ k =>
      show countQ ("?," ++ placeholders (k + 1)) = k + 2
      rw [countQ_append, ih]
      have h1 : countQ "?," = 1 := by decide
      rw [h1]
      omega

theorem countQ_joinAnd : ∀ l : List String, countQ (joinAnd l) = (l.map countQ).sum := by
  intro l
  induction l with
  | nil => decide
  | cons s l ih =>
    cases l with
    | nil => simp [joinAnd]
    | cons b t =>
      show countQ (s ++ " AND " ++ joinAnd (b :: t)) = _
      rw [countQ_append, countQ_append, ih]
      have : countQ " AND " = 0 := by decide
      rw [this]
      simp

end NaiveQueryFilters

namespace NaiveQueryFilters

/-- What a successful `newFilterParam` guarantees about the produced parameter. -/
theorem newFilterParam_ok_inv {name op : String} {vs : List String} {fp : filterParam}
    (h : newFilterParam name op vs = .ok fp) :
    fp.Name = name ∧ fp.Values = vs ∧ 1 ≤ vs.length ∧
    (fp.QueryToken = QUERY_TOKEN_IN ∨ fp.QueryToken = QUERY_TOKEN_NOT_IN ∨
      fp.QueryToken = QUERY_TOKEN_LIKE) ∧
    (fp.QueryToken = QUERY_TOKEN_LIKE → vs.length = 1) := by
  unfold newFilterParam at h
  by_cases h0 : vs.length = 0
  · rw [if_pos h0] at h; simp at h
  · rw [if_neg h0] at h
    have hn : 1 ≤ vs.length := Nat.one_le_iff_ne_zero.mpr h0
    by_cases hop : op = ""
    · rw [if_pos hop] at h
      simp only [Except.ok.injEq] at h
      subst h
      refine ⟨rfl, rfl, hn, Or.inl rfl, ?_⟩
      intro hlike
      have hbad : QUERY_TOKEN_IN = QUERY_TOKEN_LIKE := hlike
      exact absurd hbad (by decide)
    · rw [if_neg hop] at h
      by_cases hlv : op = OPERATOR_LIKE ∧ vs.length > 1
      · rw [if_pos hlv] at h; simp at h
      · rw [if_neg hlv] at h
        cases hlook : OPERATORS.lookup op with
        | none => rw [hlook] at h; simp at h
        | some qt =>
          rw [hlook] at h
          simp only [Except.ok.injEq] at h
          subst h
          have hmem := lookup_mem hlook
          have hqt : (op = OPERATOR_IN ∧ qt = QUERY_TOKEN_IN) ∨
              (op = OPERATOR_NOT_IN ∧ qt = QUERY_TOKEN_NOT_IN) ∨
              (op = OPERATOR_LIKE ∧ qt = QUERY_TOKEN_LIKE) := by
            simpa [OPERATORS, Prod.ext_iff] using hmem
          refine ⟨rfl, rfl, hn, ?_, ?_⟩
          · rcases hqt with ⟨_, h⟩ | ⟨_, h⟩ | ⟨_, h⟩
            · exact Or.inl h
            · exact Or.inr (Or.inl h)
            · exact Or.inr (Or.inr h)
          · intro hlike
            rcases hqt with ⟨_, h⟩ | ⟨_, h⟩ | ⟨hopl, h⟩
            · exact absurd (h ▸ hlike : QUERY_TOKEN_IN = QUERY_TOKEN_LIKE) (by decide)
            · exact absurd (h ▸ hlike : QUERY_TOKEN_NOT_IN = QUERY_TOKEN_LIKE) (by decide)
            · have : ¬ vs.length > 1 := fun hgt => hlv ⟨hopl, hgt⟩
              omega

/-- What a successful `splitParamName` guarantees about the produced parameter. -/
theorem splitParamName_ok_inv {k : String} {vs : List String} {fp : filterParam}
    (h : splitParamName k vs = .ok fp) :
    fp.Values = vs ∧ 1 ≤ vs.length ∧
    (fp.QueryToken = QUERY_TOKEN_IN ∨ fp.QueryToken = QUERY_TOKEN_NOT_IN ∨
      fp.QueryToken = QUERY_TOKEN_LIKE) ∧
    (fp.QueryToken = QUERY_TOKEN_LIKE → vs.length = 1) := by
  unfold splitParamName at h
  by_cases h1 : (stringsSplit k OPERATOR_SEPARATOR).length ≤ 1
  · rw [if_pos h1] at h
    exact (newFilterParam_ok_inv h).2
  · rw [if_neg h1] at h
    by_cases h2 : (stringsSplit k OPERATOR_SEPARATOR).length ≠ 2
    · rw [if_pos h2] at h; simp at h
    · rw [if_neg h2] at h
      by_cases h3 : (OPERATORS.lookup ((stringsSplit k OPERATOR_SEPARATOR).getD 1 "")).isNone
      · rw [if_pos h3] at h; simp at h
      · rw [if_neg h3] at h
        exact (newFilterParam_ok_inv h).2

/-- The per-parameter fragment carries exactly one `?` per value, provided the
final column name itself contains none. -/
theorem countQ_Sql {fp : filterParam}
    (hname : fp.Name.data.count '?' = 0)
    (hv : 1 ≤ fp.Values.length)
    (ht : fp.QueryToken = QUERY_TOKEN_IN ∨ fp.QueryToken = QUERY_TOKEN_NOT_IN ∨
      fp.QueryToken = QUERY_TOKEN_LIKE)
    (hlike : fp.QueryToken = QUERY_TOKEN_LIKE → fp.Values.length = 1) :
    countQ fp.Sql = fp.Values.length := by
  have hnq : countQ fp.Name = 0 := hname
  unfold filterParam.Sql
  by_cases c1 : fp.Values.length = 1 ∧ fp.QueryToken = QUERY_TOKEN_IN
  · rw [if_pos c1, countQ_append, countQ_append, countQ_append, hnq, c1.1]
    have e1 : countQ " " = 0 := by decide
    have e2 : countQ QUERY_TOKEN_EQUALS = 0 := by decide
    have e3 : countQ " ?" = 1 := by decide
    omega
  · rw [if_neg c1]
    by_cases c2 : fp.Values.length = 1 ∧ fp.QueryToken = QUERY_TOKEN_NOT_IN
    · rw [if_pos c2, countQ_append, countQ_append, countQ_append, hnq, c2.1]
      have e1 : countQ " " = 0 := by decide
      have e2 : countQ QUERY_TOKEN_NOT_EQUALS = 0 := by decide
      have e3 : countQ " ?" = 1 := by decide
      omega
    · rw [if_neg c2]
      by_cases c3 : fp.QueryToken = QUERY_TOKEN_LIKE
      · rw [if_pos c3, countQ_append, countQ_append, countQ_append, countQ_append, hnq,
          hlike c3]
        have e1 : countQ "LOWER(" = 0 := by decide
        have e2 : countQ ") " = 0 := by decide
        have e3 : countQ QUERY_TOKEN_LIKE = 0 := by decide
        have e4 : countQ " CONCAT('%', ?, '%')" = 1 := by decide
        omega
      · rw [if_neg c3]
        have hne : fp.Values ≠ [] := by
          intro he
          rw [he] at hv
          simp at hv
        rw [buildPhrase_eq fp.Name fp.QueryToken fp.Values hne]
        have hup : countQ (stringsToUpper fp.QueryToken) = 0 := by
          rcases ht with h | h | h
          · rw [h]; decide
          · rw [h]; decide
          · exact absurd h c3
        rw [countQ_append, countQ_append, countQ_append, countQ_append, countQ_append,
          hnq, hup, countQ_placeholders]
        have e1 : countQ " " = 0 := by decide
        have e2 : countQ " (" = 0 := by decide
        have e3 : countQ ")" = 0 := by decide
        omega

end NaiveQueryFilters

namespace NaiveQueryFilters

/-- A single parameter is already ordered. -/
theorem ordered_singleton (k : String) (vs : List String) :
    getOrderedGetParams [(k, vs)] = [(k, vs)] := by
  unfold getOrderedGetParams
  simp [List.insertionSort, List.orderedInsert, List.lookup_cons]

/-- On every error path the zero-value `Filter` is returned. -/
theorem Build_filter_of_err (wl : AllowedColumns) (ps : RawParams)
    (h : (Build wl ps).err.isSome) : (Build wl ps).filter = ⟨"", []⟩ := by
  unfold Build at h ⊢
  cases hv : getValidQueryParams wl (getOrderedGetParams ps) with
  | mk vp rest =>
    obtain ⟨rp, oe⟩ := rest
    rw [hv] at h
    cases oe with
    | some e => rfl
    | none => exact (Bool.false_ne_true h).elim

/-- Everything in the removed-parameters component of the loop comes from the
initial accumulator or is a rejected member of the scanned list. -/
theorem gvqpLoop_rp_mem (wl : AllowedColumns) :
    ∀ (l : RawParams) (vp : List (String × filterParam)) (rp₀ : RawParams),
      ∀ x ∈ (gvqpLoop wl l vp rp₀).2.1,
        x ∈ rp₀ ∨ (x ∈ l ∧ isRejected wl x = true) := by
  intro l
  induction l with
  | nil => intro vp rp₀ x hx; left; simpa [gvqpLoop] using hx
  | cons e l ih =>
    intro vp rp₀ x hx
    obtain ⟨k, vs⟩ := e
    cases hsplit : splitParamName k vs with
    | error e₀ =>
      rw [gvqpLoop_cons_err hsplit] at hx
      left; exact hx
    | ok fp =>
      cases hlook : wl.lookup fp.Name with
      | some f =>
        rw [gvqpLoop_cons_some hsplit hlook] at hx
        rcases ih _ rp₀ x hx with h | ⟨h₁, h₂⟩
        · left; exact h
        · right; exact ⟨by simp [h₁], h₂⟩
      | none =>
        rw [gvqpLoop_cons_none hsplit hlook] at hx
        rcases ih vp _ x hx with h | ⟨h₁, h₂⟩
        · rcases List.mem_append.mp h with h | h
          · left; exact h
          · right
            have : x = (k, vs) := by simpa using h
            subst this
            exact ⟨by simp, isRejected_none hsplit hlook⟩
        · right; exact ⟨by simp [h₁], h₂⟩

/-- Everything in a non-nil invalid-parameters map of `Build` is a rejected
member of the ordered input. -/
theorem Build_invalid_mem (wl : AllowedColumns) (ps : RawParams) :
    ∀ rp, (Build wl ps).invalidParams = some rp →
      ∀ x ∈ rp, x ∈ getOrderedGetParams ps ∧ isRejected wl x = true := by
  unfold Build getValidQueryParams
  by_cases hlen : (getOrderedGetParams ps).length = 0
  · rw [if_pos hlen]
    intro rp h
    simp at h
  · rw [if_neg hlen]
    cases hloop : gvqpLoop wl (getOrderedGetParams ps) [] [] with
    | mk vp rest =>
      obtain ⟨rpl, oe⟩ := rest
      have hmem := gvqpLoop_rp_mem wl (getOrderedGetParams ps) [] []
      rw [hloop] at hmem
      simp only at hmem
      cases oe with
      | some e =>
        intro rp h x hx
        simp only [BuildResult.invalidParams, Option.some.injEq] at h
        subst h
        rcases hmem x hx with h | ⟨h₁, h₂⟩
        · simp at h
        · exact ⟨h₁, h₂⟩
      | none =>
        intro rp h x hx
        by_cases hz : rpl.length = 0
        · simp only [if_pos hz] at h
          simp at h
        · simp only [if_neg hz, Option.some.injEq] at h
          subst h
          rcases hmem x hx with h | ⟨h₁, h₂⟩
          · simp at h
          · exact ⟨h₁, h₂⟩

/-- Association-list lookup of a member pair, under duplicate-free keys. -/
theorem lookup_of_mem_nodup :
    ∀ (ps : RawParams) (k : String) (vs : List String),
      ((ps.map Prod.fst).Nodup) → (k, vs) ∈ ps → ps.lookup k = some vs := by
  intro ps
  induction ps with
  | nil => intro k vs _ h; simp at h
  | cons p rest ih =>
    intro k vs hnd hmem
    obtain ⟨a, b⟩ := p
    rcases List.mem_cons.mp hmem with h | h
    · obtain ⟨h₁, h₂⟩ := Prod.mk.injEq .. ▸ h
      subst h₁; subst h₂
      simp [List.lookup_cons]
    · have hka : (k == a) = false := by
        rw [beq_eq_false_iff_ne]
        intro he
        subst he
        simp only [List.map_cons, List.nodup_cons] at hnd
        exact hnd.1 (List.mem_map_of_mem Prod.fst h)
      rw [List.lookup_cons]
      simp only [hka]
      exact ih k vs (by simp only [List.map_cons, List.nodup_cons] at hnd; exact hnd.2) h

/-- Every ordered pair stores the lookup of its own key. -/
theorem mem_ordered_eq (ps : RawParams) (x : String × List String)
    (h : x ∈ getOrderedGetParams ps) : x = (x.1, (ps.lookup x.1).getD []) := by
  unfold getOrderedGetParams at h
  rw [List.mem_map] at h
  obtain ⟨key, _, hx⟩ := h
  rw [← hx]

end NaiveQueryFilters

namespace NaiveQueryFilters

/-- Sorting commutes with filtering. -/
theorem insertionSort_filter (p : String → Bool) (l : List String) :
    List.insertionSort keyLe (l.filter p) = (List.insertionSort keyLe l).filter p := by
  apply List.eq_of_perm_of_sorted (r := keyLe)
  · exact (List.perm_insertionSort keyLe _).trans
      ((List.perm_insertionSort keyLe l).filter p).symm
  · exact List.sorted_insertionSort keyLe _
  · exact (List.sorted_insertionSort keyLe l).filter p

/-- Removing the pairs of one key does not change lookups of other keys. -/
theorem lookup_filter_ne :
    ∀ (ps : RawParams) (k kp : String), (kp == k) = false →
      (ps.filter (fun p => !(p.1 == k))).lookup kp = ps.lookup kp := by
  intro ps
  induction ps with
  | nil => intro k kp _; simp
  | cons p rest ih =>
    intro k kp hne
    obtain ⟨a, b⟩ := p
    by_cases ha : (a == k) = true
    · have hpa : (kp == a) = false := by
        rw [beq_eq_false_iff_ne] at hne ⊢
        intro he
        exact hne (he.trans (eq_of_beq ha))
      rw [List.filter_cons]
      simp only [ha, Bool.not_true, Bool.false_eq_true, if_false]
      rw [ih k kp hne, List.lookup_cons]
      simp only [hpa]
    · rw [Bool.not_eq_true] at ha
      rw [List.filter_cons]
      simp only [ha, Bool.not_false, if_true]
      rw [List.lookup_cons, List.lookup_cons]
      by_cases hpa : (kp == a) = true
      · simp only [hpa]
      · rw [Bool.not_eq_true] at hpa
        simp only [hpa]
        exact ih k kp hne

/-- Filtering away only pairs the map sends to `none` does not change a
`filterMap`. -/
theorem filterMap_filter_of_none {α β : Type} (f : α → Option β) (q : α → Bool) :
    ∀ l : List α, (∀ x ∈ l, q x = false → f x = none) →
      (l.filter q).filterMap f = l.filterMap f := by
  intro l
  induction l with
  | nil => intro _; simp
  | cons x l ih =>
    intro h
    rw [List.filter_cons]
    by_cases hq : q x = true
    · simp only [hq, if_true]
      rw [List.filterMap_cons, List.filterMap_cons]
      cases f x with
      | none => exact ih (fun y hy => h y (by simp [hy]))
      | some b => rw [ih (fun y hy => h y (by simp [hy]))]
    · rw [Bool.not_eq_true] at hq
      simp only [hq, Bool.false_eq_true, if_false]
      rw [List.filterMap_cons, h x (by simp) hq]
      exact ih (fun y hy => h y (by simp [hy]))

/-- Ordering commutes with removing one key. -/
theorem ordered_filter_key (ps : RawParams) (k : String) :
    getOrderedGetParams (ps.filter (fun p => !(p.1 == k)))
      = (getOrderedGetParams ps).filter (fun p => !(p.1 == k)) := by
  unfold getOrderedGetParams
  have hkeys : (ps.filter (fun p => !(p.1 == k))).map Prod.fst
      = (ps.map Prod.fst).filter (fun s => !(s == k)) := by
    rw [List.filter_map]
    rfl
  rw [hkeys, insertionSort_filter, List.filter_map]
  apply List.map_congr_left
  intro kp hkp
  have hq : (!(kp == k)) = true := (List.mem_filter.mp hkp).2
  have hne : (kp == k) = false := by
    rw [Bool.not_eq_true'] at hq
    exact hq
  rw [lookup_filter_ne ps k kp hne]

end NaiveQueryFilters

namespace NaiveQueryFilters

/-- When exactly one parameter fails to split (all others are well-formed),
`Build` aborts with that parameter's error, an empty filter, and a non-nil
rejected map. -/
theorem Build_single_bad (wl : AllowedColumns) (ps : RawParams) (k : String)
    (vs : List String) (e : BuildError)
    (hnd : (ps.map Prod.fst).Nodup)
    (hmem : (k, vs) ∈ ps)
    (hothers : ∀ p ∈ ps, p.1 ≠ k → splitOk p = true)
    (hsplit : splitParamName k vs = .error e) :
    ∃ rp, Build wl ps = ⟨⟨"", []⟩, some rp, some e⟩ := by
  have hperm := ordered_perm ps hnd
  have hosmem : (k, vs) ∈ getOrderedGetParams ps := hperm.mem_iff.mpr hmem
  obtain ⟨l₁, l₂, hdecomp⟩ := List.append_of_mem hosmem
  have hosnd : ((getOrderedGetParams ps).map Prod.fst).Nodup := ordered_nodup ps hnd
  have hl₁ : ∀ x ∈ l₁, splitOk x = true := by
    intro x hx
    have hxos : x ∈ getOrderedGetParams ps := by rw [hdecomp]; simp [hx]
    have hxps : x ∈ ps := hperm.mem_iff.mp hxos
    apply hothers x hxps
    intro hxk
    have : (l₁.map Prod.fst ++ k :: l₂.map Prod.fst).Nodup := by
      have h := hosnd
      rw [hdecomp] at h
      simpa using h
    rw [List.nodup_append] at this
    exact this.2.2 (hxk ▸ List.mem_map_of_mem Prod.fst hx) (by simp)
  exact ⟨l₁.filter (isRejected wl),
    Build_error wl ps l₁ l₂ k vs e hdecomp hl₁ hsplit⟩

end NaiveQueryFilters

namespace NaiveQueryFilters

/-- Claim C8: for every whitelist, `Build` on an empty raw-parameters map
returns the `AttemptedEmptyFilteringParams` error. -/
theorem C8_empty_input (wl : AllowedColumns) :
    Build wl [] = ⟨⟨"", []⟩, none, some .attemptedEmptyFilteringParams⟩ := rfl

/-- Claim C3: the single-parameter builder emits, in priority order, `= ?` for
a singleton `IN`, `<> ?` for a singleton `NOT IN`, the fixed `LIKE` phrase for
`LIKE`, and otherwise the uppercase operator token followed by exactly
`len(values)` comma-separated placeholders in parentheses. -/
theorem C3_single_parameter_builder (fp : filterParam) :
    (fp.Values.length = 1 → fp.QueryToken = QUERY_TOKEN_IN →
        fp.Sql = fp.Name ++ " " ++ QUERY_TOKEN_EQUALS ++ " ?") ∧
    (fp.Values.length = 1 → fp.QueryToken = QUERY_TOKEN_NOT_IN →
        fp.Sql = fp.Name ++ " " ++ QUERY_TOKEN_NOT_EQUALS ++ " ?") ∧
    (fp.QueryToken = QUERY_TOKEN_LIKE →
        fp.Sql = "LOWER(" ++ fp.Name ++ ") " ++ QUERY_TOKEN_LIKE
          ++ " CONCAT('%', ?, '%')") ∧
    (2 ≤ fp.Values.length →
      (fp.QueryToken = QUERY_TOKEN_IN ∨ fp.QueryToken = QUERY_TOKEN_NOT_IN) →
        fp.Sql = fp.Name ++ " " ++ stringsToUpper fp.QueryToken ++ " ("
          ++ placeholders fp.Values.length ++ ")" ∧
        stringsToUpper fp.QueryToken = fp.QueryToken) := by
  refine ⟨?_, ?_, ?_, ?_⟩
  · intro h1 h2
    unfold filterParam.Sql
    rw [if_pos ⟨h1, h2⟩]
  · intro h1 h2
    have hnin : fp.QueryToken ≠ QUERY_TOKEN_IN := by rw [h2]; decide
    unfold filterParam.Sql
    rw [if_neg (fun hc => hnin hc.2), if_pos ⟨h1, h2⟩]
  · intro h
    have hnin : fp.QueryToken ≠ QUERY_TOKEN_IN := by rw [h]; decide
    have hnni : fp.QueryToken ≠ QUERY_TOKEN_NOT_IN := by rw [h]; decide
    unfold filterParam.Sql
    rw [if_neg (fun hc => hnin hc.2), if_neg (fun hc => hnni hc.2), if_pos h]
  · intro hlen htok
    have h1 : fp.Values.length ≠ 1 := by omega
    have hnl : fp.QueryToken ≠ QUERY_TOKEN_LIKE := by
      rcases htok with h | h
      · rw [h]; decide
      · rw [h]; decide
    have hne : fp.Values ≠ [] := by
      intro he
      rw [he] at hlen
      simp at hlen
    constructor
    · unfold filterParam.Sql
      rw [if_neg (fun hc => h1 hc.1), if_neg (fun hc => h1 hc.1), if_neg hnl]
      exact buildPhrase_eq fp.Name fp.QueryToken fp.Values hne
    · rcases htok with h | h
      · rw [h]; decide
      · rw [h]; decide

/-- Claim C5: a key splitting into more than two `__`-separated segments is a
`WrongQueryParamName` error; a key splitting into a column and an unknown
operator token is a `WrongOperator` error carrying the token and the full key;
at `Build` level the same errors surface (when the other parameters are
well-formed) with an empty `Filter`, and every erroring `Build` returns the
empty `Filter`. -/
theorem C5_malformed_keys (wl : AllowedColumns) (ps : RawParams)
    (k c op : String) (vs : List String)
    (hnd : (ps.map Prod.fst).Nodup) :
    (2 < (stringsSplit k OPERATOR_SEPARATOR).length →
        splitParamName k vs = .error (.wrongQueryParamName k)) ∧
    (stringsSplit k OPERATOR_SEPARATOR = [c, op] → OPERATORS.lookup op = none →
        splitParamName k vs = .error (.wrongOperator op k)) ∧
    ((k, vs) ∈ ps → (∀ p ∈ ps, p.1 ≠ k → splitOk p = true) →
      2 < (stringsSplit k OPERATOR_SEPARATOR).length →
        ∃ rp, Build wl ps = ⟨⟨"", []⟩, some rp, some (.wrongQueryParamName k)⟩) ∧
    ((k, vs) ∈ ps → (∀ p ∈ ps, p.1 ≠ k → splitOk p = true) →
      stringsSplit k OPERATOR_SEPARATOR = [c, op] → OPERATORS.lookup op = none →
        ∃ rp, Build wl ps = ⟨⟨"", []⟩, some rp, some (.wrongOperator op k)⟩) ∧
    ((Build wl ps).err.isSome → (Build wl ps).filter = ⟨"", []⟩) := by
  have hA : 2 < (stringsSplit k OPERATOR_SEPARATOR).length →
      splitParamName k vs = .error (.wrongQueryParamName k) := by
    intro h
    unfold splitParamName
    rw [if_neg (by omega), if_pos (by omega)]
  have hB : stringsSplit k OPERATOR_SEPARATOR = [c, op] → OPERATORS.lookup op = none →
      splitParamName k vs = .error (.wrongOperator op k) := by
    intro hres hop
    unfold splitParamName
    rw [hres]
    rw [if_neg (by simp), if_neg (by simp)]
    rw [if_pos (by simp [hop])]
    rfl
  refine ⟨hA, hB, ?_, ?_, Build_filter_of_err wl ps⟩
  · intro hmem hothers hlen
    exact Build_single_bad wl ps k vs _ hnd hmem hothers (hA hlen)
  · intro hmem hothers hres hop
    exact Build_single_bad wl ps k vs _ hnd hmem hothers (hB hres hop)

end NaiveQueryFilters

namespace NaiveQueryFilters

/-- `Build` on a single whitelisted parameter: one fragment, its values, a nil
rejected map. -/
theorem Build_singleton_some (wl : AllowedColumns) (k : String) (vs : List String)
    (fp : filterParam) (f : String → String)
    (hsplit : splitParamName k vs = .ok fp)
    (hw : wl.lookup fp.Name = some f) :
    Build wl [(k, vs)]
      = ⟨⟨filterParam.Sql { fp with Name := f fp.Name }, fp.Values⟩, none, none⟩ := by
  unfold Build
  rw [ordered_singleton]
  unfold getValidQueryParams
  rw [if_neg (by simp)]
  rw [gvqpLoop_cons_some hsplit hw]
  have hset : omapSet [] (f fp.Name) { fp with Name := f fp.Name }
      = [(f fp.Name, { fp with Name := f fp.Name })] := by
    simp [omapSet]
  rw [hset]
  show BuildResult.mk
      (buildQueryFilters [(f fp.Name, { fp with Name := f fp.Name })]) none none = _
  simp [buildQueryFilters, joinAnd]

/-- `Build` on a single parameter whose key fails to split: the error, the
empty filter, and the non-nil empty rejected map. -/
theorem Build_singleton_err (wl : AllowedColumns) (k : String) (vs : List String)
    (e : BuildError) (hsplit : splitParamName k vs = .error e) :
    Build wl [(k, vs)] = ⟨⟨"", []⟩, some [], some e⟩ := by
  unfold Build
  rw [ordered_singleton]
  unfold getValidQueryParams
  rw [if_neg (by simp)]
  rw [gvqpLoop_cons_err hsplit]

end NaiveQueryFilters

namespace NaiveQueryFilters

/-- Computation of `splitParamName` on a two-segment key with a recognized
operator. -/
theorem splitParamName_two (k c op qt : String) (vs : List String)
    (hres : stringsSplit k OPERATOR_SEPARATOR = [c, op])
    (hop : OPERATORS.lookup op = some qt)
    (hv : vs.length ≠ 0)
    (hnotlike : ¬ (op = OPERATOR_LIKE ∧ vs.length > 1)) :
    splitParamName k vs = .ok ⟨c, qt, vs⟩ := by
  have hop' : op ≠ "" := by
    intro he
    rw [he] at hop
    simp [OPERATORS, OPERATOR_IN, OPERATOR_NOT_IN, OPERATOR_LIKE, List.lookup] at hop
  unfold splitParamName
  rw [hres]
  rw [if_neg (by simp), if_neg (by simp)]
  rw [if_neg (by simp [hop])]
  show newFilterParam c op vs = _
  unfold newFilterParam
  rw [if_neg hv, if_neg hop', if_neg hnotlike, hop]

/-- Computation of `splitParamName` on a key with no separator. -/
theorem splitParamName_plain (k : String) (vs : List String)
    (hres : stringsSplit k OPERATOR_SEPARATOR = [k])
    (hv : vs.length ≠ 0) :
    splitParamName k vs = .ok ⟨k, QUERY_TOKEN_IN, vs⟩ := by
  unfold splitParamName
  rw [hres]
  rw [if_pos (by simp)]
  show newFilterParam k "" vs = _
  unfold newFilterParam
  rw [if_neg hv, if_pos rfl]

/-- Claim C6: a whitelisted `__like` parameter with one value produces exactly
the `LOWER(..) LIKE CONCAT..` fragment binding that value; with two or more
values `Build` errors out ("like operator only supports single value"). -/
theorem C6_like (wl : AllowedColumns) (k c : String) (f : String → String)
    (v v' : String) (vs : List String)
    (hres : stringsSplit k OPERATOR_SEPARATOR = [c, OPERATOR_LIKE])
    (hw : wl.lookup c = some f) :
    Build wl [(k, [v])]
      = ⟨⟨"LOWER(" ++ f c ++ ") " ++ QUERY_TOKEN_LIKE ++ " CONCAT('%', ?, '%')", [v]⟩,
         none, none⟩ ∧
    Build wl [(k, v :: v' :: vs)] = ⟨⟨"", []⟩, some [], some .likeMultipleValues⟩ := by
  constructor
  · have hsplit : splitParamName k [v] = .ok ⟨c, QUERY_TOKEN_LIKE, [v]⟩ :=
      splitParamName_two k c OPERATOR_LIKE QUERY_TOKEN_LIKE [v] hres (by decide)
        (by simp) (by simp)
    rw [Build_singleton_some wl k [v] ⟨c, QUERY_TOKEN_LIKE, [v]⟩ f hsplit hw]
    have hsql : filterParam.Sql ⟨f c, QUERY_TOKEN_LIKE, [v]⟩
        = "LOWER(" ++ f c ++ ") " ++ QUERY_TOKEN_LIKE ++ " CONCAT('%', ?, '%')" := by
      unfold filterParam.Sql
      rw [if_neg (fun hc => absurd
          (show QUERY_TOKEN_LIKE = QUERY_TOKEN_IN from hc.2) (by decide)),
        if_neg (fun hc => absurd
          (show QUERY_TOKEN_LIKE = QUERY_TOKEN_NOT_IN from hc.2) (by decide)),
        if_pos rfl]
    rw [hsql]
  · have hsplit : splitParamName k (v :: v' :: vs) = .error .likeMultipleValues := by
      unfold splitParamName
      rw [hres]
      rw [if_neg (by simp), if_neg (by simp)]
      rw [if_neg (by simp [show OPERATORS.lookup OPERATOR_LIKE = some QUERY_TOKEN_LIKE
        from by decide])]
      show newFilterParam c OPERATOR_LIKE (v :: v' :: vs) = _
      unfold newFilterParam
      rw [if_neg (by simp), if_neg (by decide), if_pos (by simp [OPERATOR_LIKE])]
    exact Build_singleton_err wl k (v :: v' :: vs) .likeMultipleValues hsplit

/-- Claim C7: for a whitelisted column, a single-valued `__in` key and the
plain key produce identical `Build` results, whose fragment is the
equality form. -/
theorem C7_in_vs_plain (wl : AllowedColumns) (c : String) (f : String → String)
    (v : String)
    (hplain : stringsSplit c OPERATOR_SEPARATOR = [c])
    (hin : stringsSplit (c ++ "__in") OPERATOR_SEPARATOR = [c, OPERATOR_IN])
    (hw : wl.lookup c = some f) :
    Build wl [(c ++ "__in", [v])] = Build wl [(c, [v])] ∧
    (Build wl [(c, [v])]).filter
      = ⟨f c ++ " " ++ QUERY_TOKEN_EQUALS ++ " ?", [v]⟩ := by
  have hsplit₁ : splitParamName (c ++ "__in") [v] = .ok ⟨c, QUERY_TOKEN_IN, [v]⟩ :=
    splitParamName_two (c ++ "__in") c OPERATOR_IN QUERY_TOKEN_IN [v] hin (by decide)
      (by simp) (by simp [OPERATOR_IN, OPERATOR_LIKE])
  have hsplit₂ : splitParamName c [v] = .ok ⟨c, QUERY_TOKEN_IN, [v]⟩ :=
    splitParamName_plain c [v] hplain (by simp)
  have h₁ := Build_singleton_some wl (c ++ "__in") [v] ⟨c, QUERY_TOKEN_IN, [v]⟩ f hsplit₁ hw
  have h₂ := Build_singleton_some wl c [v] ⟨c, QUERY_TOKEN_IN, [v]⟩ f hsplit₂ hw
  refine ⟨h₁.trans h₂.symm, ?_⟩
  rw [h₂]
  have hsql : filterParam.Sql ⟨f c, QUERY_TOKEN_IN, [v]⟩
      = f c ++ " " ++ QUERY_TOKEN_EQUALS ++ " ?" := by
    unfold filterParam.Sql
    rw [if_pos ⟨by simp, rfl⟩]
  rw [hsql]

end NaiveQueryFilters

namespace NaiveQueryFilters

/-- Claim C9: when two distinct raw keys (in ascending order) are both
whitelisted and their rewritten final names coincide, `Build` keeps a single
predicate for that name: the later parameter's, with only the later
parameter's values bound, and nothing recorded in the rejected map. -/
theorem C9_final_name_collision (wl : AllowedColumns) (k₁ k₂ : String)
    (vs₁ vs₂ : List String) (fp₁ fp₂ : filterParam) (f₁ f₂ : String → String)
    (hle : keyLe k₁ k₂) (hne : k₁ ≠ k₂)
    (h₁ : splitParamName k₁ vs₁ = .ok fp₁)
    (h₂ : splitParamName k₂ vs₂ = .ok fp₂)
    (hw₁ : wl.lookup fp₁.Name = some f₁)
    (hw₂ : wl.lookup fp₂.Name = some f₂)
    (heq : f₁ fp₁.Name = f₂ fp₂.Name) :
    Build wl [(k₁, vs₁), (k₂, vs₂)]
      = ⟨⟨filterParam.Sql { fp₂ with Name := f₂ fp₂.Name }, fp₂.Values⟩,
         none, none⟩ := by
  have hbeq21 : (k₂ == k₁) = false := by
    rw [beq_eq_false_iff_ne]
    exact fun h => hne h.symm
  have hsort : List.insertionSort keyLe [k₁, k₂] = [k₁, k₂] := by
    show List.orderedInsert keyLe k₁ [k₂] = _
    simp only [List.orderedInsert]
    rw [if_pos hle]
  have hord : getOrderedGetParams [(k₁, vs₁), (k₂, vs₂)] = [(k₁, vs₁), (k₂, vs₂)] := by
    unfold getOrderedGetParams
    show (List.insertionSort keyLe [k₁, k₂]).map _ = _
    rw [hsort]
    simp [List.lookup_cons, hbeq21]
  unfold Build
  rw [hord]
  unfold getValidQueryParams
  rw [if_neg (by simp)]
  rw [gvqpLoop_cons_some h₁ hw₁]
  have hset₁ : omapSet [] (f₁ fp₁.Name) { fp₁ with Name := f₁ fp₁.Name }
      = [(f₁ fp₁.Name, { fp₁ with Name := f₁ fp₁.Name })] := by
    simp [omapSet]
  rw [hset₁, gvqpLoop_cons_some h₂ hw₂]
  have hset₂ : omapSet [(f₁ fp₁.Name, { fp₁ with Name := f₁ fp₁.Name })]
      (f₂ fp₂.Name) { fp₂ with Name := f₂ fp₂.Name }
      = [(f₂ fp₂.Name, { fp₂ with Name := f₂ fp₂.Name })] := by
    rw [← heq]
    simp [omapSet]
  rw [hset₂]
  show BuildResult.mk
      (buildQueryFilters [(f₂ fp₂.Name, { fp₂ with Name := f₂ fp₂.Name })]) none none = _
  simp [buildQueryFilters, joinAnd]

/-- Claim C10: on success the rejected map is nil rather than empty (it is
non-empty whenever it is non-nil), while a parameter-parsing abort always
returns a non-nil map, which is the empty one when no parameter was
reject-worthy. -/
theorem C10_rejected_nil_vs_empty (wl : AllowedColumns) (ps : RawParams)
    (hnd : (ps.map Prod.fst).Nodup) :
    ((Build wl ps).err = none →
      (Build wl ps).invalidParams = none ∨
        ∃ x l, (Build wl ps).invalidParams = some (x :: l)) ∧
    (∀ e, (Build wl ps).err = some e → e ≠ .attemptedEmptyFilteringParams →
      ∃ l, (Build wl ps).invalidParams = some l) ∧
    ((∀ p ∈ ps, isRejected wl p = false) →
      ∀ e, (Build wl ps).err = some e → e ≠ .attemptedEmptyFilteringParams →
        (Build wl ps).invalidParams = some []) := by
  unfold Build getValidQueryParams
  by_cases hlen : (getOrderedGetParams ps).length = 0
  · rw [if_pos hlen]
    refine ⟨?_, ?_, ?_⟩
    · intro h; simp at h
    · intro e he hne
      simp only [BuildResult.err, Option.some.injEq] at he
      exact absurd he.symm hne
    · intro _ e he hne
      simp only [BuildResult.err, Option.some.injEq] at he
      exact absurd he.symm hne
  · rw [if_neg hlen]
    have hrp₀ := gvqpLoop_rp_of_no_reject wl (getOrderedGetParams ps) [] []
    cases hloop : gvqpLoop wl (getOrderedGetParams ps) [] [] with
    | mk vp rest =>
      obtain ⟨rpl, oe⟩ := rest
      rw [hloop] at hrp₀
      simp only at hrp₀
      cases oe with
      | some e₀ =>
        refine ⟨?_, ?_, ?_⟩
        · intro h; simp at h
        · intro e _ _; exact ⟨rpl, rfl⟩
        · intro hno e _ _
          have hno' : ∀ p ∈ getOrderedGetParams ps, isRejected wl p = false := by
            intro p hp
            exact hno p ((ordered_perm ps hnd).mem_iff.mp hp)
          have : rpl = [] := hrp₀ hno'
          rw [this]
      | none =>
        refine ⟨?_, ?_, ?_⟩
        · intro _
          by_cases hz : rpl.length = 0
          · left; simp [hz]
          · right
            cases rpl with
            | nil => simp at hz
            | cons x l => exact ⟨x, l, by simp [hz]⟩
        · intro e he
          simp only [BuildResult.err] at he
          simp at he
        · intro _ e he
          simp only [BuildResult.err] at he
          simp at he

end NaiveQueryFilters

namespace NaiveQueryFilters

/-- Inversion of a successful `acceptsEntry`. -/
theorem acceptsEntry_some_inv {wl : AllowedColumns} {e : String × List String}
    {q : String × filterParam} (h : acceptsEntry wl e = some q) :
    ∃ fp f, splitParamName e.1 e.2 = .ok fp ∧ wl.lookup fp.Name = some f ∧
      q = (f fp.Name, { fp with Name := f fp.Name }) := by
  cases hs : splitParamName e.1 e.2 with
  | error e₀ =>
    rw [acceptsEntry_err hs] at h
    simp at h
  | ok fp =>
    cases hl : wl.lookup fp.Name with
    | some f =>
      rw [acceptsEntry_some hs hl] at h
      simp only [Option.some.injEq] at h
      exact ⟨fp, f, rfl, hl, h.symm⟩
    | none =>
      rw [acceptsEntry_none hs hl] at h
      simp at h

/-- Claim C1 (amended): on success the fragment joins the accepted parameters
in ascending order of the ORIGINAL raw keys (which is how they were sorted),
not of the final column names. -/
theorem C1_raw_key_order (wl : AllowedColumns) (ps : RawParams)
    (hn : (((getOrderedGetParams ps).filterMap (acceptsEntry wl)).map Prod.fst).Nodup)
    (he : (Build wl ps).err = none) :
    List.Sorted keyLe ((getOrderedGetParams ps).map Prod.fst) ∧
    (Build wl ps).filter.SqlFilters
      = joinAnd (((getOrderedGetParams ps).filterMap (acceptsEntry wl)).map
          (fun p => p.2.Sql)) := by
  obtain ⟨hne, hok⟩ := (Build_err_none_iff wl ps).mp he
  refine ⟨ordered_sorted ps, ?_⟩
  rw [Build_success wl ps hne hok]
  have hfold := foldSet_fresh ((getOrderedGetParams ps).filterMap (acceptsEntry wl)) []
    (by simpa using hn)
  show (buildQueryFilters
      (foldSet [] ((getOrderedGetParams ps).filterMap (acceptsEntry wl)))).SqlFilters = _
  rw [hfold]
  simp only [List.nil_append]
  rfl

/-- Claim C1 counterexample: a rewrite that renames column `a` to `z` keeps the
fragment in raw-key order `z, b`, not in final-name order `b, z`. -/
theorem C1_counterexample :
    (Build [("a", fun _ => "z"), ("b", fun s => s)]
        [("a", ["1"]), ("b", ["2"])]).err = none ∧
    (Build [("a", fun _ => "z"), ("b", fun s => s)]
        [("a", ["1"]), ("b", ["2"])]).filter.SqlFilters = "z = ? AND b = ?" ∧
    fragmentSortedByFinalName [("a", fun _ => "z"), ("b", fun s => s)]
        [("a", ["1"]), ("b", ["2"])] = "b = ? AND z = ?" ∧
    (Build [("a", fun _ => "z"), ("b", fun s => s)]
        [("a", ["1"]), ("b", ["2"])]).filter.SqlFilters
      ≠ fragmentSortedByFinalName [("a", fun _ => "z"), ("b", fun s => s)]
          [("a", ["1"]), ("b", ["2"])] := by
  refine ⟨by decide, by decide, by decide, by decide⟩

/-- Claim C2 (amended): on success the number of `?` characters of the
fragment equals the number of bind values, provided no whitelisted column
rewrites to a name containing `?`. -/
theorem C2_placeholder_count (wl : AllowedColumns) (ps : RawParams)
    (hwl : ∀ p ∈ wl, countQ (p.2 p.1) = 0)
    (he : (Build wl ps).err = none) :
    countQ (Build wl ps).filter.SqlFilters
      = (Build wl ps).filter.PlaceholderValues.length := by
  obtain ⟨hne, hok⟩ := (Build_err_none_iff wl ps).mp he
  rw [Build_success wl ps hne hok]
  show countQ (buildQueryFilters
      (foldSet [] ((getOrderedGetParams ps).filterMap (acceptsEntry wl)))).SqlFilters
    = (buildQueryFilters
      (foldSet [] ((getOrderedGetParams ps).filterMap (acceptsEntry wl)))).PlaceholderValues.length
  have hP : ∀ q ∈ foldSet [] ((getOrderedGetParams ps).filterMap (acceptsEntry wl)),
      countQ q.2.Name = 0 ∧ 1 ≤ q.2.Values.length ∧
      (q.2.QueryToken = QUERY_TOKEN_IN ∨ q.2.QueryToken = QUERY_TOKEN_NOT_IN ∨
        q.2.QueryToken = QUERY_TOKEN_LIKE) ∧
      (q.2.QueryToken = QUERY_TOKEN_LIKE → q.2.Values.length = 1) := by
    apply foldSet_forall
      (fun q => countQ q.2.Name = 0 ∧ 1 ≤ q.2.Values.length ∧
        (q.2.QueryToken = QUERY_TOKEN_IN ∨ q.2.QueryToken = QUERY_TOKEN_NOT_IN ∨
          q.2.QueryToken = QUERY_TOKEN_LIKE) ∧
        (q.2.QueryToken = QUERY_TOKEN_LIKE → q.2.Values.length = 1))
      ((getOrderedGetParams ps).filterMap (acceptsEntry wl)) []
    · intro q hq; simp at hq
    · intro q hq
      obtain ⟨x, _, hacc⟩ := List.mem_filterMap.mp hq
      obtain ⟨fp, f, hs, hl, hqe⟩ := acceptsEntry_some_inv hacc
      obtain ⟨hvals, hlen, htok, hlike⟩ := splitParamName_ok_inv hs
      have hmemwl := lookup_mem hl
      have hname : countQ (f fp.Name) = 0 := hwl (fp.Name, f) hmemwl
      subst hqe
      exact ⟨hname, by rw [← hvals] at hlen; exact hlen, htok,
        fun h => by rw [hvals]; exact hlike h⟩
  unfold buildQueryFilters
  rw [countQ_joinAnd, List.length_flatMap, List.map_map]
  apply congrArg List.sum
  apply List.map_congr_left
  intro q hq
  obtain ⟨hname, hlen, htok, hlike⟩ := hP q hq
  exact countQ_Sql hname hlen htok hlike

/-- Claim C2 counterexample: a whitelisted column whose name contains `?`
makes the fragment's `?` count exceed the bind-value count. -/
theorem C2_counterexample :
    (Build [("a?", fun s => s)] [("a?", ["1"])]).err = none ∧
    countQ (Build [("a?", fun s => s)] [("a?", ["1"])]).filter.SqlFilters = 2 ∧
    (Build [("a?", fun s => s)] [("a?", ["1"])]).filter.PlaceholderValues.length = 1 := by
  refine ⟨by decide, by decide, by decide⟩

end NaiveQueryFilters

namespace NaiveQueryFilters

/-- Claim C4: an unwhitelisted parameter is not an error — it lands verbatim in
the non-nil rejected map, contributes nothing (removing it leaves the filter
unchanged) and the rest is still processed; a whitelisted parameter never
appears in the rejected map. -/
theorem C4_unwhitelisted (wl : AllowedColumns) (ps : RawParams) (k : String)
    (vs : List String) (fp : filterParam)
    (hnd : (ps.map Prod.fst).Nodup)
    (hmem : (k, vs) ∈ ps)
    (hsplit : splitParamName k vs = .ok fp) :
    (wl.lookup fp.Name = none → (Build wl ps).err = none →
      (∃ rp, (Build wl ps).invalidParams = some rp ∧ (k, vs) ∈ rp) ∧
      (Build wl ps).filter = (Build wl (ps.filter (fun p => !(p.1 == k)))).filter) ∧
    (∀ f, wl.lookup fp.Name = some f →
      ∀ rp, (Build wl ps).invalidParams = some rp → (k, vs) ∉ rp) := by
  constructor
  · intro hwn he
    obtain ⟨hne, hok⟩ := (Build_err_none_iff wl ps).mp he
    have hperm := ordered_perm ps hnd
    have hkos : (k, vs) ∈ getOrderedGetParams ps := hperm.mem_iff.mpr hmem
    have hrejk : isRejected wl (k, vs) = true := isRejected_none hsplit hwn
    constructor
    · rw [Build_success wl ps hne hok]
      have hkfilter : (k, vs) ∈ (getOrderedGetParams ps).filter (isRejected wl) :=
        List.mem_filter.mpr ⟨hkos, hrejk⟩
      have hnonempty : (getOrderedGetParams ps).filter (isRejected wl) ≠ [] := by
        intro h0
        rw [h0] at hkfilter
        simp at hkfilter
      refine ⟨(getOrderedGetParams ps).filter (isRejected wl), ?_, hkfilter⟩
      show (if (getOrderedGetParams ps).filter (isRejected wl) = [] then none
          else some ((getOrderedGetParams ps).filter (isRejected wl))) = some _
      rw [if_neg hnonempty]
    · have hord' : getOrderedGetParams (ps.filter (fun p => !(p.1 == k)))
          = (getOrderedGetParams ps).filter (fun p => !(p.1 == k)) :=
        ordered_filter_key ps k
      have hfm : ((getOrderedGetParams ps).filter
            (fun p => !(p.1 == k))).filterMap (acceptsEntry wl)
          = (getOrderedGetParams ps).filterMap (acceptsEntry wl) := by
        apply filterMap_filter_of_none
        intro x hx hqx
        have hx1b : (x.1 == k) = true := by
          cases hb : x.1 == k with
          | true => rfl
          | false => rw [hb] at hqx; simp at hqx
        have hx1 : x.1 = k := eq_of_beq hx1b
        have h2 := mem_ordered_eq ps x hx
        rw [hx1, lookup_of_mem_nodup ps k vs hnd hmem, Option.getD_some] at h2
        rw [h2]
        exact acceptsEntry_none hsplit hwn
      have hok' : ∀ x ∈ getOrderedGetParams (ps.filter (fun p => !(p.1 == k))),
          splitOk x = true := by
        intro x hx
        rw [hord'] at hx
        exact hok x (List.mem_filter.mp hx).1
      by_cases hne' : getOrderedGetParams (ps.filter (fun p => !(p.1 == k))) = []
      · have h0 : (getOrderedGetParams ps).filter (fun p => !(p.1 == k)) = [] := by
          rw [← hord']
          exact hne'
        have hacc : (getOrderedGetParams ps).filterMap (acceptsEntry wl) = [] := by
          rw [← hfm, h0]
          simp
        rw [Build_success wl ps hne hok]
        have hbuild' : (Build wl (ps.filter (fun p => !(p.1 == k)))).filter
            = ⟨"", []⟩ := by
          unfold Build getValidQueryParams
          rw [if_pos (by rw [hne']; rfl)]
        rw [hbuild']
        show buildQueryFilters
            (foldSet [] ((getOrderedGetParams ps).filterMap (acceptsEntry wl)))
          = ⟨"", []⟩
        rw [hacc]
        rfl
      · rw [Build_success wl ps hne hok,
          Build_success wl (ps.filter (fun p => !(p.1 == k))) hne' hok']
        show buildQueryFilters
            (foldSet [] ((getOrderedGetParams ps).filterMap (acceptsEntry wl)))
          = buildQueryFilters (foldSet []
              ((getOrderedGetParams (ps.filter (fun p => !(p.1 == k)))).filterMap
                (acceptsEntry wl)))
        rw [hord', hfm]
  · intro f hw rp hinv hkin
    obtain ⟨hos, hrej⟩ := Build_invalid_mem wl ps rp hinv (k, vs) hkin
    rw [isRejected_some hsplit hw] at hrej
    exact (Bool.false_ne_true hrej).elim

end NaiveQueryFilters

namespace NaiveQueryFilters

theorem C1_raw_key_order_witness :
    List.Sorted keyLe ((getOrderedGetParams [("b", ["2"]), ("a", ["1"])]).map Prod.fst) ∧
    (Build [("a", fun s => s), ("b", fun s => s)]
        [("b", ["2"]), ("a", ["1"])]).filter.SqlFilters
      = joinAnd (((getOrderedGetParams [("b", ["2"]), ("a", ["1"])]).filterMap
          (acceptsEntry [("a", fun s => s), ("b", fun s => s)])).map
            (fun p => p.2.Sql)) :=
  C1_raw_key_order [("a", fun s => s), ("b", fun s => s)] [("b", ["2"]), ("a", ["1"])]
    (by decide) (by decide)

theorem C2_placeholder_count_witness :
    countQ (Build [("col1", fun s => s)]
        [("col1", ["1", "2"])]).filter.SqlFilters
      = (Build [("col1", fun s => s)]
          [("col1", ["1", "2"])]).filter.PlaceholderValues.length :=
  C2_placeholder_count [("col1", fun s => s)] [("col1", ["1", "2"])]
    (by decide) (by decide)

theorem C3_single_parameter_builder_witness :
    filterParam.Sql ⟨"col", QUERY_TOKEN_IN, ["1", "2"]⟩ = "col IN (?,?)" := by
  have h := (C3_single_parameter_builder ⟨"col", QUERY_TOKEN_IN, ["1", "2"]⟩).2.2.2
    (by decide) (Or.inl rfl)
  exact h.1.trans (by decide)

theorem C4_unwhitelisted_witness :
    (Build [("col1", fun s => s)] [("col1", ["1"]), ("col3", ["x"])]).filter
      = (Build [("col1", fun s => s)] [("col1", ["1"])]).filter := by
  have h := (C4_unwhitelisted [("col1", fun s => s)] [("col1", ["1"]), ("col3", ["x"])]
    "col3" ["x"] ⟨"col3", QUERY_TOKEN_IN, ["x"]⟩ (by decide) (by decide) rfl).1
    rfl (by decide)
  have hfil := h.2
  have hlist : [("col1", ["1"]), ("col3", ["x"])].filter (fun p => !(p.1 == "col3"))
      = [("col1", ["1"])] := by decide
  rw [hlist] at hfil
  exact hfil

theorem C5_malformed_keys_witness :
    ((Build [("col1", fun s => s)] [("a__b__c", ["1"])]).err
        = some (.wrongQueryParamName "a__b__c") ∧
      (Build [("col1", fun s => s)] [("a__b__c", ["1"])]).filter = ⟨"", []⟩) ∧
    ((Build [("col1", fun s => s)] [("col1__between", ["1"])]).err
        = some (.wrongOperator "between" "col1__between") ∧
      (Build [("col1", fun s => s)] [("col1__between", ["1"])]).filter = ⟨"", []⟩) := by
  constructor
  · obtain ⟨rp, h⟩ := (C5_malformed_keys [("col1", fun s => s)] [("a__b__c", ["1"])]
      "a__b__c" "x" "y" ["1"] (by decide)).2.2.1 (by decide) (by decide) (by decide)
    rw [h]
    exact ⟨rfl, rfl⟩
  · obtain ⟨rp, h⟩ := (C5_malformed_keys [("col1", fun s => s)] [("col1__between", ["1"])]
      "col1__between" "col1" "between" ["1"] (by decide)).2.2.2.1 (by decide) (by decide)
      (by decide) (by decide)
    rw [h]
    exact ⟨rfl, rfl⟩

theorem C6_like_witness :
    Build [("col1", fun s => s)] [("col1__like", ["foo"])]
      = ⟨⟨"LOWER(col1) LIKE CONCAT('%', ?, '%')", ["foo"]⟩, none, none⟩ ∧
    Build [("col1", fun s => s)] [("col1__like", ["foo", "bar"])]
      = ⟨⟨"", []⟩, some [], some .likeMultipleValues⟩ := by
  have h := C6_like [("col1", fun s => s)] "col1__like" "col1" (fun s => s) "foo" "bar" []
    (by decide) rfl
  exact ⟨h.1.trans (by decide), h.2⟩

theorem C7_in_vs_plain_witness :
    Build [("col1", fun s => s)] [("col1__in", ["7"])]
      = Build [("col1", fun s => s)] [("col1", ["7"])] ∧
    (Build [("col1", fun s => s)] [("col1", ["7"])]).filter = ⟨"col1 = ?", ["7"]⟩ := by
  have h := C7_in_vs_plain [("col1", fun s => s)] "col1" (fun s => s) "7"
    (by decide) (by decide) rfl
  exact ⟨h.1, h.2.trans (by decide)⟩

theorem C9_final_name_collision_witness :
    Build [("col", fun s => s)] [("col", ["1"]), ("col__in", ["2"])]
      = ⟨⟨"col = ?", ["2"]⟩, none, none⟩ := by
  have h := C9_final_name_collision [("col", fun s => s)] "col" "col__in" ["1"] ["2"]
    ⟨"col", QUERY_TOKEN_IN, ["1"]⟩ ⟨"col", QUERY_TOKEN_IN, ["2"]⟩
    (fun s => s) (fun s => s) (by decide) (by decide) rfl rfl rfl rfl rfl
  exact h.trans (by decide)

theorem C10_rejected_nil_vs_empty_witness :
    (Build [("col1", fun s => s)] [("col1", ["1"])]).invalidParams = none ∧
    (Build [("col1", fun s => s)] [("a__b__c", ["1"])]).invalidParams = some [] := by
  constructor
  · have h := (C10_rejected_nil_vs_empty [("col1", fun s => s)] [("col1", ["1"])]
      (by decide)).1 (by decide)
    rcases h with h | ⟨x, l, h⟩
    · exact h
    · rw [show (Build [("col1", fun s => s)] [("col1", ["1"])]).invalidParams = none
        from by decide] at h
      simp at h
  · exact (C10_rejected_nil_vs_empty [("col1", fun s => s)] [("a__b__c", ["1"])]
      (by decide)).2.2 (by decide) (.wrongQueryParamName "a__b__c") (by decide) (by decide)

end NaiveQueryFilters
